import Mathlib

/-!
Verification of the GoPlus shared-ownership primitives (`pkg/arc/arc.go`)
and the future combinators (`pkg/option/option.go`).

The Go `Arc[T]` handle stores an `unsafe.Pointer` to a single heap block
`arcInternal[T]{data, ref}`.  All handles to one cell alias the same block,
so a handle is embedded as a `Bool` (`true` when its `ptr` field is non-nil,
`false` when it is nil) paired with the block it would point to.  Every
operation takes the handle's pointer flag plus the block state and returns
the updated flag/block exactly as the Go method body does; the atomic
operations are sequentialised (each `atomic.AddInt64` / `CompareAndSwapInt64`
is a single step of the model).
-/

namespace arc

/-- Embeds `arcInternal[T]`: the heap block holding the value and the
atomic strong-reference counter (`ref int64`, modelled as `Int`). -/
structure ArcInternal (T : Type) where
  data : T
  ref : Int
  deriving Repr, DecidableEq

/-- Embeds `NewArc`: a fresh block with count 1; the returned handle's
pointer is set. -/
def NewArc {T : Type} (value : T) : Bool × ArcInternal T :=
  (true, { data := value, ref := 1 })

/-- Embeds `Arc.Clone`: nil handle gives a nil result; otherwise the count
is atomically incremented and a new handle with the same pointer returned.
Result: (new handle's pointer flag, updated block). -/
def Clone {T : Type} (ptrSet : Bool) (b : ArcInternal T) : Bool × ArcInternal T :=
  if ptrSet then
    (true, { b with ref := b.ref + 1 })
  else
    (false, b)

/-- Embeds `Arc.Deref`: nil handle gives nil; otherwise a reference to the
block's data (modelled as `some data`). -/
def Deref {T : Type} (ptrSet : Bool) (b : ArcInternal T) : Option T :=
  if ptrSet then some b.data else none

/-- Embeds `Arc.StrongCount`: 0 for a nil handle, otherwise the atomic load
of the counter. -/
def StrongCount {T : Type} (ptrSet : Bool) (b : ArcInternal T) : Int :=
  if ptrSet then b.ref else 0

/-- Embeds `Arc.Drop`: nil handle is a no-op; otherwise the count is
atomically decremented and, only when the post-decrement value is 0, the
receiver's own pointer is set to nil.  Result: (receiver's new pointer
flag, updated block). -/
def Drop {T : Type} (ptrSet : Bool) (b : ArcInternal T) : Bool × ArcInternal T :=
  if ptrSet then
    if b.ref - 1 = 0 then
      (false, { b with ref := b.ref - 1 })
    else
      (true, { b with ref := b.ref - 1 })
  else
    (ptrSet, b)

/-- Embeds `Arc.GetMut`: nil handle gives nil; otherwise the data reference
only when the counter reads exactly 1. -/
def GetMut {T : Type} (ptrSet : Bool) (b : ArcInternal T) : Option T :=
  if ptrSet then
    if b.ref = 1 then some b.data else none
  else
    none

/-- Embeds `Arc.TryUnwrap`: nil handle fails; otherwise the CAS loop:
load the counter, fail if it is not 1, else CAS it from 1 to 0, take the
data and null the receiver's pointer.  In the sequential model the CAS at
a counter value of 1 always succeeds on the first iteration.  Result:
(returned value if any, receiver's new pointer flag, updated block). -/
def TryUnwrap {T : Type} (ptrSet : Bool) (b : ArcInternal T) :
    Option T × Bool × ArcInternal T :=
  if ptrSet then
    if b.ref = 1 then
      (some b.data, false, { b with ref := 0 })
    else
      (none, true, b)
  else
    (none, false, b)

/-- Embeds `Arc.Downgrade`: nil handle gives a nil weak handle; otherwise a
weak handle sharing the pointer, the block untouched.  Result: (weak
handle's pointer flag if a weak handle is produced, block). -/
def Downgrade {T : Type} (ptrSet : Bool) (b : ArcInternal T) :
    Option Bool × ArcInternal T :=
  if ptrSet then (some true, b) else (none, b)

/-- Embeds `Arc.With`: nil handle returns false; otherwise the count is
incremented, `fn` runs on the block's data, then `a.Drop()` runs on the
receiver.  Result: (With's boolean result, receiver's pointer flag after
the bracket, updated block). -/
def With {T : Type} (ptrSet : Bool) (b : ArcInternal T) (fn : T → T) :
    Bool × Bool × ArcInternal T :=
  if ptrSet then
    let b1 : ArcInternal T := { b with ref := b.ref + 1 }
    let b2 : ArcInternal T := { b1 with data := fn b1.data }
    let r := Drop ptrSet b2
    (true, r.1, r.2)
  else
    (false, ptrSet, b)

/-- Embeds `Arc.CompareAndSwap`: nil handle gives false; false without any
write when the counter is not exactly 1; otherwise the stored data is
replaced by `newValue` and true returned.  `oldValue` is never consulted. -/
def CompareAndSwap {T : Type} (ptrSet : Bool) (b : ArcInternal T)
    (oldValue newValue : T) : Bool × ArcInternal T :=
  if ptrSet then
    if b.ref = 1 then
      (true, { b with data := newValue })
    else
      (false, b)
  else
    (false, b)

end arc

namespace Weak

/-- Embeds `Weak.Upgrade`: nil weak handle gives nil; otherwise the
optimistic protocol: atomically increment the counter, succeed when the
post-increment value is strictly greater than 1, otherwise atomically roll
the increment back and fail.  Result: (new strong handle's pointer flag if
the upgrade succeeds, updated block). -/
def Upgrade {T : Type} (wptrSet : Bool) (b : arc.ArcInternal T) :
    Option Bool × arc.ArcInternal T :=
  if wptrSet then
    let current := b.ref + 1
    if current > 1 then
      (some true, { b with ref := current })
    else
      (none, { b with ref := current - 1 })
  else
    (none, b)

end Weak

namespace option

/-!
Embedding of the single-result future of `pkg/option/option.go`.  A
`futureImpl[T]` publishes its result and then closes its `done` channel;
`Get` blocks on `done` and returns the published result.  A completed
future is therefore embedded as the published result together with the
instant (`doneAt`, an abstract tick count) at which its `done` channel
closed.  A combinator built with `New(func() ... { ... other.Get() ... })`
closes its own `done` only after every `Get` it performs has returned,
i.e. not before any awaited future's `doneAt`.
-/

/-- Embeds `Future[T]` / `futureImpl[T]`: the published result plus the
instant the `done` channel closed. -/
structure Future (T : Type) where
  result : T
  doneAt : Nat
  deriving Repr, DecidableEq

/-- Embeds `Get`: block until `done` closes, then return the result. -/
def Future.Get {T : Type} (f : Future T) : T :=
  f.result

/-- Embeds `Then`: a new future running `fn(f.Get())`; it can close its
`done` only once `f` has closed its own, so it completes at `f.doneAt`. -/
def Then {T1 T2 : Type} (f : Future T1) (fn : T1 → T2) : Future T2 :=
  { result := fn (Future.Get f), doneAt := f.doneAt }

/-- Embeds `All`: a new future whose computation `Get`s every input in
input order, storing `results[i] = futures[i].Get()`; it completes only
after the last sequential `Get` returned, i.e. at the maximum of the
inputs' completion instants. -/
def All {T : Type} (futures : List (Future T)) : Future (List T) :=
  { result := futures.map Future.Get
    doneAt := futures.foldl (fun acc f => max acc f.doneAt) 0 }

/-- Embeds `Map`: a new future running `fn(f.Get())`. -/
def Map {T R : Type} (f : Future T) (fn : T → R) : Future R :=
  { result := fn (Future.Get f), doneAt := f.doneAt }

end option

namespace arc

/-!
Trace model for clone/drop sequences on one cell.  A trace starts from
`NewArc` and applies `Clone`/`Drop` through named handles.  Each handle
records its pointer flag (the executable state the Go code keeps) plus a
ghost flag telling whether `Drop` has already been invoked through it;
the ghost flag only constrains which traces are well-formed (the spec's
lifecycle: every operation is invoked through a live handle, i.e. one
created earlier and not yet dropped) and never feeds back into the
executable state.  `releases` counts how many times `Drop` took its
release branch (post-decrement count 0).
-/

/-- One handle's bookkeeping: `ptrSet` is the executable pointer flag,
`droppedG` the ghost already-dropped flag. -/
structure HandleSt where
  ptrSet : Bool
  droppedG : Bool
  deriving Repr, DecidableEq

/-- Whole-trace state: the block, every handle created so far (index =
creation order, handle 0 from `NewArc`), and the release counter. -/
structure TraceSt (T : Type) where
  blk : ArcInternal T
  handles : List HandleSt
  releases : Nat

/-- A trace step: `Clone` through handle `src`, or `Drop` through
handle `h`. -/
inductive ArcOp where
  | cloneOp (src : Nat)
  | dropOp (h : Nat)
  deriving Repr, DecidableEq

/-- The state after `NewArc value`: count 1, one live handle. -/
def initSt {T : Type} (value : T) : TraceSt T :=
  { blk := (NewArc value).2
    handles := [{ ptrSet := (NewArc value).1, droppedG := false }]
    releases := 0 }

/-- Executes one step.  `cloneOp` runs `Clone` through the named handle
and registers the returned handle; `dropOp` runs `Drop` through the named
handle, stores the receiver's new pointer flag and marks the ghost flag.
A step naming a handle that was never created does nothing. -/
def stepOp {T : Type} (s : TraceSt T) : ArcOp → TraceSt T
  | .cloneOp src =>
    match s.handles[src]? with
    | some e =>
      let r := Clone e.ptrSet s.blk
      { blk := r.2
        handles := s.handles ++ [{ ptrSet := r.1, droppedG := false }]
        releases := s.releases }
    | none => s
  | .dropOp h =>
    match s.handles[h]? with
    | some e =>
      let r := Drop e.ptrSet s.blk
      { blk := r.2
        handles := s.handles.set h { ptrSet := r.1, droppedG := true }
        releases :=
          if e.ptrSet = true ∧ r.2.ref = 0 then s.releases + 1 else s.releases }
    | none => s

/-- Runs a whole trace. -/
def runOps {T : Type} (s : TraceSt T) (ops : List ArcOp) : TraceSt T :=
  ops.foldl stepOp s

/-- A step is well-formed when its handle exists and has not been dropped
yet (the spec's lifecycle discipline). -/
def validOpB {T : Type} (s : TraceSt T) : ArcOp → Bool
  | .cloneOp src =>
    match s.handles[src]? with
    | some e => !e.droppedG
    | none => false
  | .dropOp h =>
    match s.handles[h]? with
    | some e => !e.droppedG
    | none => false

/-- A trace is well-formed when every step is, in the state it runs in. -/
def validTrace {T : Type} (s : TraceSt T) : List ArcOp → Bool
  | [] => true
  | op :: rest => validOpB s op && validTrace (stepOp s op) rest

/-- Number of `cloneOp` steps. -/
def cloneCount : List ArcOp → Nat
  | [] => 0
  | .cloneOp _ :: rest => cloneCount rest + 1
  | .dropOp _ :: rest => cloneCount rest

/-- Number of `dropOp` steps. -/
def dropCount : List ArcOp → Nat
  | [] => 0
  | .cloneOp _ :: rest => dropCount rest
  | .dropOp _ :: rest => dropCount rest + 1

/-- Handles that are still live (not yet dropped). -/
def liveCount {T : Type} (s : TraceSt T) : Nat :=
  s.handles.countP (fun e => !e.droppedG)

/-- The inductive invariant: the counter equals the number of live
handles, every live handle still holds its pointer, and the release
branch has run exactly when the counter is 0. -/
def Inv {T : Type} (s : TraceSt T) : Prop :=
  s.blk.ref = (liveCount s : Int)
  ∧ (∀ e ∈ s.handles, e.droppedG = false → e.ptrSet = true)
  ∧ s.releases = (if s.blk.ref = 0 then 1 else 0)

lemma countP_set_add {A : Type} (p : A → Bool) (l : List A) :
    ∀ (i : Nat) (a b : A), l[i]? = some a →
      (l.set i b).countP p + (if p a then 1 else 0)
        = l.countP p + (if p b then 1 else 0) := by
  induction l with
  | nil => intro i a b h; simp at h
  | cons x xs ih =>
    intro i a b h
    cases i with
    | zero =>
      simp only [List.getElem?_cons_zero, Option.some.injEq] at h
      cases h
      simp only [List.set, List.countP_cons]
      omega
    | succ i =>
      simp only [List.getElem?_cons_succ] at h
      have hx := ih i a b h
      simp only [List.set, List.countP_cons]
      omega

lemma live_mem_pos {T : Type} (s : TraceSt T) (e : HandleSt)
    (hm : e ∈ s.handles) (hd : e.droppedG = false) : 1 ≤ liveCount s := by
  have : 0 < s.handles.countP (fun e => !e.droppedG) :=
    List.countP_pos_iff.mpr ⟨e, hm, by simp [hd]⟩
  simpa [liveCount] using this

lemma inv_step_clone {T : Type} (s : TraceSt T) (src : Nat)
    (hInv : Inv s) (hv : validOpB s (ArcOp.cloneOp src) = true) :
    Inv (stepOp s (ArcOp.cloneOp src))
    ∧ (stepOp s (ArcOp.cloneOp src)).blk.ref = s.blk.ref + 1 := by
  obtain ⟨h1, h2, h3⟩ := hInv
  rcases hq : s.handles[src]? with _ | e
  · simp [validOpB, hq] at hv
  · have hd : e.droppedG = false := by
      simpa [validOpB, hq] using hv
    have hmem : e ∈ s.handles := List.getElem?_mem hq
    have hp : e.ptrSet = true := h2 e hmem hd
    have hlive : 1 ≤ liveCount s := live_mem_pos s e hmem hd
    have href1 : 1 ≤ s.blk.ref := by rw [h1]; exact_mod_cast hlive
    have hstep : stepOp s (ArcOp.cloneOp src)
        = { blk := { data := s.blk.data, ref := s.blk.ref + 1 }
            handles := s.handles ++ [{ ptrSet := true, droppedG := false }]
            releases := s.releases } := by
      simp [stepOp, hq, Clone, hp]
    rw [hstep]
    refine ⟨⟨?_, ?_, ?_⟩, rfl⟩
    · show s.blk.ref + 1
        = ((s.handles ++ [({ ptrSet := true, droppedG := false } : HandleSt)]).countP
            (fun e => !e.droppedG) : Int)
      rw [List.countP_append]
      simp only [List.countP_cons, List.countP_nil]
      push_cast
      push_cast [liveCount] at h1
      simp only [Bool.not_false]
      norm_num
      omega
    · intro e' he' hd'
      rcases List.mem_append.mp he' with hia | hia
      · exact h2 e' hia hd'
      · simp only [List.mem_singleton] at hia
        rw [hia]
    · show s.releases = if s.blk.ref + 1 = 0 then 1 else 0
      have hne : ¬s.blk.ref = 0 := by omega
      have hne' : ¬s.blk.ref + 1 = 0 := by omega
      simp only [hne, if_false] at h3
      simpa [hne'] using h3

lemma inv_step_drop {T : Type} (s : TraceSt T) (h : Nat)
    (hInv : Inv s) (hv : validOpB s (ArcOp.dropOp h) = true) :
    Inv (stepOp s (ArcOp.dropOp h))
    ∧ (stepOp s (ArcOp.dropOp h)).blk.ref = s.blk.ref - 1 := by
  obtain ⟨h1, h2, h3⟩ := hInv
  rcases hq : s.handles[h]? with _ | e
  · simp [validOpB, hq] at hv
  · have hd : e.droppedG = false := by
      simpa [validOpB, hq] using hv
    have hmem : e ∈ s.handles := List.getElem?_mem hq
    have hp : e.ptrSet = true := h2 e hmem hd
    have hlive : 1 ≤ liveCount s := live_mem_pos s e hmem hd
    have href1 : 1 ≤ s.blk.ref := by rw [h1]; exact_mod_cast hlive
    have hcount : ∀ b : HandleSt, b.droppedG = true →
        (s.handles.set h b).countP (fun e => !e.droppedG) + 1
          = s.handles.countP (fun e => !e.droppedG) := by
      intro b hb
      have hc := countP_set_add (fun e => !e.droppedG) s.handles h e b hq
      simpa [hd, hb] using hc
    have hmem2 : ∀ e', e' ∈ s.handles.set h
          { ptrSet := if s.blk.ref - 1 = 0 then false else true, droppedG := true } →
        e'.droppedG = false → e'.ptrSet = true := by
      intro e' he' hd'
      rcases List.mem_or_eq_of_mem_set he' with hia | hia
      · exact h2 e' hia hd'
      · rw [hia] at hd'
        simp at hd'
    have hne : ¬s.blk.ref = 0 := by omega
    have hrel0 : s.releases = 0 := by simpa [hne] using h3
    by_cases hz : s.blk.ref - 1 = 0
    · have hstep : stepOp s (ArcOp.dropOp h)
          = { blk := { data := s.blk.data, ref := s.blk.ref - 1 }
              handles := s.handles.set h { ptrSet := false, droppedG := true }
              releases := s.releases + 1 } := by
        simp [stepOp, hq, Drop, hp, hz]
      rw [hstep]
      refine ⟨⟨?_, ?_, ?_⟩, rfl⟩
      · show s.blk.ref - 1
          = ((s.handles.set h { ptrSet := false, droppedG := true }).countP
              (fun e => !e.droppedG) : Int)
        have hc := hcount { ptrSet := false, droppedG := true } rfl
        push_cast [liveCount] at h1
        omega
      · intro e' he' hd'
        exact hmem2 e' (by simpa [hz] using he') hd'
      · show s.releases + 1 = if s.blk.ref - 1 = 0 then 1 else 0
        simp [hz, hrel0]
    · have hstep : stepOp s (ArcOp.dropOp h)
          = { blk := { data := s.blk.data, ref := s.blk.ref - 1 }
              handles := s.handles.set h { ptrSet := true, droppedG := true }
              releases := s.releases } := by
        simp [stepOp, hq, Drop, hp, hz]
      rw [hstep]
      refine ⟨⟨?_, ?_, ?_⟩, rfl⟩
      · show s.blk.ref - 1
          = ((s.handles.set h { ptrSet := true, droppedG := true }).countP
              (fun e => !e.droppedG) : Int)
        have hc := hcount { ptrSet := true, droppedG := true } rfl
        push_cast [liveCount] at h1
        omega
      · intro e' he' hd'
        exact hmem2 e' (by simpa [hz] using he') hd'
      · show s.releases = if s.blk.ref - 1 = 0 then 1 else 0
        simp [hz, hrel0]

lemma run_valid {T : Type} :
    ∀ (ops : List ArcOp) (s : TraceSt T), Inv s → validTrace s ops = true →
      Inv (runOps s ops)
      ∧ (runOps s ops).blk.ref
          = s.blk.ref + (cloneCount ops : Int) - (dropCount ops : Int) := by
  intro ops
  induction ops with
  | nil =>
    intro s hInv _
    refine ⟨hInv, by simp [runOps, cloneCount, dropCount]⟩
  | cons op rest ih =>
    intro s hInv hv
    rw [validTrace, Bool.and_eq_true] at hv
    have hrun : runOps s (op :: rest) = runOps (stepOp s op) rest := rfl
    cases op with
    | cloneOp src =>
      have hstep := inv_step_clone s src hInv hv.1
      have hrest := ih (stepOp s (ArcOp.cloneOp src)) hstep.1 hv.2
      refine ⟨by rw [hrun]; exact hrest.1, ?_⟩
      rw [hrun, hrest.2, hstep.2]
      simp only [cloneCount, dropCount]
      push_cast
      omega
    | dropOp h =>
      have hstep := inv_step_drop s h hInv hv.1
      have hrest := ih (stepOp s (ArcOp.dropOp h)) hstep.1 hv.2
      refine ⟨by rw [hrun]; exact hrest.1, ?_⟩
      rw [hrun, hrest.2, hstep.2]
      simp only [cloneCount, dropCount]
      push_cast
      omega

end arc

namespace option

lemma foldl_max_init_le {T : Type} (l : List (Future T)) :
    ∀ a : Nat, a ≤ l.foldl (fun acc f => max acc f.doneAt) a := by
  induction l with
  | nil => intro a; exact Nat.le_refl a
  | cons x xs ih =>
    intro a
    have h1 : a ≤ max a x.doneAt := Nat.le_max_left _ _
    exact Nat.le_trans h1 (ih (max a x.doneAt))

lemma mem_le_foldl_max {T : Type} (l : List (Future T)) :
    ∀ (f : Future T), f ∈ l →
      ∀ a : Nat, f.doneAt ≤ l.foldl (fun acc g => max acc g.doneAt) a := by
  induction l with
  | nil => intro f hf; cases hf
  | cons x xs ih =>
    intro f hf a
    rcases List.mem_cons.mp hf with hfx | hfx
    · subst hfx
      show f.doneAt ≤ xs.foldl (fun acc g => max acc g.doneAt) (max a f.doneAt)
      exact Nat.le_trans (Nat.le_max_right _ _) (foldl_max_init_le xs _)
    · exact ih f hfx (max a x.doneAt)

end option

/-- Claim C1 counterexample.  Build a cell around 42, clone it (count 2),
drop through the clone (count 1), then drop through the original handle
(count 0: the block releases and only the original handle's pointer is
nulled).  The clone was derived before the release, yet `Deref` through it
still silently succeeds with the stale value 42, so the block is still
reachable through a handle derived before release, contradicting the
claim. -/
theorem c1_stale_deref_counterexample :
    (arc.Clone (arc.NewArc (42 : Int)).1 (arc.NewArc (42 : Int)).2).1 = true
    ∧ (arc.Drop
        (arc.NewArc (42 : Int)).1
        (arc.Drop
          (arc.Clone (arc.NewArc (42 : Int)).1 (arc.NewArc (42 : Int)).2).1
          (arc.Clone (arc.NewArc (42 : Int)).1 (arc.NewArc (42 : Int)).2).2).2).2.ref = 0
    ∧ (arc.Drop
        (arc.Clone (arc.NewArc (42 : Int)).1 (arc.NewArc (42 : Int)).2).1
        (arc.Clone (arc.NewArc (42 : Int)).1 (arc.NewArc (42 : Int)).2).2).1 = true
    ∧ arc.Deref
        (arc.Drop
          (arc.Clone (arc.NewArc (42 : Int)).1 (arc.NewArc (42 : Int)).2).1
          (arc.Clone (arc.NewArc (42 : Int)).1 (arc.NewArc (42 : Int)).2).2).1
        (arc.Drop
          (arc.NewArc (42 : Int)).1
          (arc.Drop
            (arc.Clone (arc.NewArc (42 : Int)).1 (arc.NewArc (42 : Int)).2).1
            (arc.Clone (arc.NewArc (42 : Int)).1 (arc.NewArc (42 : Int)).2).2).2).2
      = some 42 := by
  decide

/-- Claim C1 (amended): a drop whose post-decrement count is zero nulls
only the pointer of the handle that performed it; the count does reach 0,
but every other handle whose pointer flag is still set continues to reach
the block, and `Deref` through it silently yields the stale value (the Go
code relies on ambient garbage collection and only nulls the receiver's
pointer). -/
theorem c1_release_nulls_only_dropper {T : Type} (b : arc.ArcInternal T)
    (href : b.ref = 1) :
    (arc.Drop true b).1 = false
    ∧ (arc.Drop true b).2.ref = 0
    ∧ ∀ p : Bool, arc.Deref p (arc.Drop true b).2
        = if p then some b.data else none := by
  have hz : b.ref - 1 = 0 := by omega
  refine ⟨?_, ?_, ?_⟩
  · simp [arc.Drop, hz]
  · simp [arc.Drop, hz]
  · intro p
    cases p <;> simp [arc.Drop, arc.Deref, hz]

/-- Claim C1 amended-theorem witness at a concrete block. -/
theorem c1_release_nulls_only_dropper_witness :
    (arc.Drop true ({ data := 42, ref := 1 } : arc.ArcInternal Int)).1 = false
    ∧ (arc.Drop true ({ data := 42, ref := 1 } : arc.ArcInternal Int)).2.ref = 0
    ∧ arc.Deref true
        (arc.Drop true ({ data := 42, ref := 1 } : arc.ArcInternal Int)).2
      = some 42 := by
  have h := c1_release_nulls_only_dropper
    ({ data := 42, ref := 1 } : arc.ArcInternal Int) rfl
  exact ⟨h.1, h.2.1, by simpa using h.2.2 true⟩

/-- Claim C2: along every well-formed trace of interleaved Clone/Drop
steps from a fresh cell (each step invoked through a live handle, per the
spec's lifecycle), the counter equals (number of clones + 1) minus (number
of drops), it is never negative, the release branch runs at most once --
exactly at the transition to zero -- and `StrongCount` through any live
handle observes exactly that counter value. -/
theorem c2_refcount_accounting {T : Type} (value : T) (ops : List arc.ArcOp)
    (hv : arc.validTrace (arc.initSt value) ops = true) :
    (arc.runOps (arc.initSt value) ops).blk.ref
        = 1 + (arc.cloneCount ops : Int) - (arc.dropCount ops : Int)
    ∧ 0 ≤ (arc.runOps (arc.initSt value) ops).blk.ref
    ∧ (arc.runOps (arc.initSt value) ops).releases ≤ 1
    ∧ ((arc.runOps (arc.initSt value) ops).releases = 1
        ↔ (arc.runOps (arc.initSt value) ops).blk.ref = 0)
    ∧ (∀ i : Nat, ∀ e : arc.HandleSt,
        (arc.runOps (arc.initSt value) ops).handles[i]? = some e →
        e.droppedG = false →
        arc.StrongCount e.ptrSet (arc.runOps (arc.initSt value) ops).blk
          = (arc.runOps (arc.initSt value) ops).blk.ref) := by
  have hInv0 : arc.Inv (arc.initSt value) := by
    refine ⟨?_, ?_, ?_⟩
    · simp [arc.initSt, arc.NewArc, arc.liveCount, List.countP_cons]
    · intro e he hd
      simp only [arc.initSt, arc.NewArc, List.mem_singleton] at he
      rw [he]
    · simp [arc.initSt, arc.NewArc]
  have h := arc.run_valid ops (arc.initSt value) hInv0 hv
  obtain ⟨⟨hF1, hF2, hF3⟩, href⟩ := h
  have hinit : (arc.initSt value).blk.ref = 1 := rfl
  refine ⟨?_, ?_, ?_, ?_, ?_⟩
  · rw [href, hinit]
  · rw [hF1]
    exact Int.natCast_nonneg _
  · rw [hF3]
    split <;> omega
  · rw [hF3]
    constructor
    · intro h1
      by_contra hne
      simp [hne] at h1
    · intro h0
      simp [h0]
  · intro i e hi hd
    have hm : e ∈ (arc.runOps (arc.initSt value) ops).handles := List.getElem?_mem hi
    have hp : e.ptrSet = true := hF2 e hm hd
    simp [arc.StrongCount, hp]

/-- Claim C2 witness: value 5, trace clone(h0); drop(h1); drop(h0). -/
theorem c2_refcount_accounting_witness :
    arc.validTrace (arc.initSt (5 : Int))
        [arc.ArcOp.cloneOp 0, arc.ArcOp.dropOp 1, arc.ArcOp.dropOp 0] = true
    ∧ (arc.runOps (arc.initSt (5 : Int))
        [arc.ArcOp.cloneOp 0, arc.ArcOp.dropOp 1, arc.ArcOp.dropOp 0]).blk.ref
      = 1 + (arc.cloneCount
              [arc.ArcOp.cloneOp 0, arc.ArcOp.dropOp 1, arc.ArcOp.dropOp 0] : Int)
          - (arc.dropCount
              [arc.ArcOp.cloneOp 0, arc.ArcOp.dropOp 1, arc.ArcOp.dropOp 0] : Int)
    ∧ (arc.runOps (arc.initSt (5 : Int))
        [arc.ArcOp.cloneOp 0, arc.ArcOp.dropOp 1, arc.ArcOp.dropOp 0]).releases = 1 := by
  have h := c2_refcount_accounting (5 : Int)
    [arc.ArcOp.cloneOp 0, arc.ArcOp.dropOp 1, arc.ArcOp.dropOp 0] (by decide)
  exact ⟨by decide, h.1, h.2.2.2.1.mpr (by decide)⟩

/-- Claim C3: through a live handle, `TryUnwrap` succeeds iff the count is
exactly 1 at its CAS (which moves the count from 1 to 0); on success it
returns the contained value, nulls the handle's pointer and leaves the
count at 0; on failure it returns no value and leaves the handle usable
and the block (count included) unchanged. -/
theorem c3_tryUnwrap_sole_owner {T : Type} (b : arc.ArcInternal T) :
    ((arc.TryUnwrap true b).1.isSome ↔ b.ref = 1)
    ∧ (b.ref = 1 →
        arc.TryUnwrap true b = (some b.data, false, { b with ref := 0 }))
    ∧ (¬b.ref = 1 → arc.TryUnwrap true b = (none, true, b)) := by
  by_cases h : b.ref = 1 <;> simp [arc.TryUnwrap, h]

/-- Claim C3 witness: success at count 1, failure at count 2. -/
theorem c3_tryUnwrap_sole_owner_witness :
    arc.TryUnwrap true ({ data := 42, ref := 1 } : arc.ArcInternal Int)
      = (some 42, false, { data := 42, ref := 0 })
    ∧ arc.TryUnwrap true ({ data := 7, ref := 2 } : arc.ArcInternal Int)
      = (none, true, { data := 7, ref := 2 }) :=
  ⟨(c3_tryUnwrap_sole_owner ({ data := 42, ref := 1 } : arc.ArcInternal Int)).2.1 rfl,
   (c3_tryUnwrap_sole_owner ({ data := 7, ref := 2 } : arc.ArcInternal Int)).2.2 (by decide)⟩

/-- Claim C4: upgrading a weak handle to a block whose count is 0 fails
(returns no strong handle) and the unconditional rollback restores the
count to exactly 0. -/
theorem c4_upgrade_dead_block {T : Type} (b : arc.ArcInternal T)
    (h : b.ref = 0) :
    (Weak.Upgrade true b).1 = none ∧ (Weak.Upgrade true b).2.ref = 0 := by
  have hgt : ¬b.ref + 1 > 1 := by omega
  constructor
  · simp [Weak.Upgrade, hgt]
  · simp [Weak.Upgrade, hgt]
    omega

/-- Claim C4 witness at a dead block. -/
theorem c4_upgrade_dead_block_witness :
    (Weak.Upgrade true ({ data := 9, ref := 0 } : arc.ArcInternal Int)).1 = none
    ∧ (Weak.Upgrade true ({ data := 9, ref := 0 } : arc.ArcInternal Int)).2.ref = 0 :=
  c4_upgrade_dead_block ({ data := 9, ref := 0 } : arc.ArcInternal Int) rfl

/-- Claim C5: through a live handle (count at least 1), `Downgrade` leaves
the block -- hence the strong count -- untouched and returns a weak handle
with the pointer set; an immediate `Upgrade` of that weak handle succeeds,
yields a strong handle with the pointer set to the same block, and leaves
the count exactly one higher. -/
theorem c5_downgrade_upgrade_roundtrip {T : Type} (b : arc.ArcInternal T)
    (h : 1 ≤ b.ref) :
    arc.Downgrade true b = (some true, b)
    ∧ Weak.Upgrade true b = (some true, { b with ref := b.ref + 1 }) := by
  have hgt : b.ref + 1 > 1 := by omega
  constructor
  · rfl
  · simp [Weak.Upgrade, hgt]

/-- Claim C5 witness at a fresh cell's block. -/
theorem c5_downgrade_upgrade_roundtrip_witness :
    arc.Downgrade true ({ data := 3, ref := 1 } : arc.ArcInternal Int)
      = (some true, { data := 3, ref := 1 })
    ∧ Weak.Upgrade true ({ data := 3, ref := 1 } : arc.ArcInternal Int)
      = (some true, { data := 3, ref := 2 }) :=
  c5_downgrade_upgrade_roundtrip ({ data := 3, ref := 1 } : arc.ArcInternal Int)
    (by decide)

/-- Claim C6: through a live handle, `CompareAndSwap` returns true and
stores `newValue` iff the count is exactly 1; at any other count it
returns false and leaves the stored value unchanged; and the result never
depends on the `oldValue` argument (a sole-owner replace, not a
value-identity CAS). -/
theorem c6_cas_sole_owner_replace {T : Type} (b : arc.ArcInternal T)
    (oldValue oldValue' newValue : T) :
    ((arc.CompareAndSwap true b oldValue newValue).1 = true ↔ b.ref = 1)
    ∧ (b.ref = 1 →
        arc.CompareAndSwap true b oldValue newValue
          = (true, { b with data := newValue }))
    ∧ (¬b.ref = 1 →
        arc.CompareAndSwap true b oldValue newValue = (false, b))
    ∧ arc.CompareAndSwap true b oldValue newValue
        = arc.CompareAndSwap true b oldValue' newValue := by
  by_cases h : b.ref = 1 <;> simp [arc.CompareAndSwap, h]

/-- Claim C6 witness: replace succeeds at count 1 regardless of the
expected value, fails at count 2. -/
theorem c6_cas_sole_owner_replace_witness :
    arc.CompareAndSwap true ({ data := 1, ref := 1 } : arc.ArcInternal Int) 99 2
      = (true, { data := 2, ref := 1 })
    ∧ arc.CompareAndSwap true ({ data := 1, ref := 2 } : arc.ArcInternal Int) 1 2
      = (false, { data := 1, ref := 2 })
    ∧ arc.CompareAndSwap true ({ data := 1, ref := 1 } : arc.ArcInternal Int) 99 2
      = arc.CompareAndSwap true ({ data := 1, ref := 1 } : arc.ArcInternal Int) 1 2 :=
  ⟨(c6_cas_sole_owner_replace ({ data := 1, ref := 1 } : arc.ArcInternal Int) 99 1 2).2.1 rfl,
   (c6_cas_sole_owner_replace ({ data := 1, ref := 2 } : arc.ArcInternal Int) 1 99 2).2.2.1
     (by decide),
   (c6_cas_sole_owner_replace ({ data := 1, ref := 1 } : arc.ArcInternal Int) 99 1 2).2.2.2⟩

/-- Claim C7: `All` yields the inputs' results in input order (slot i
holds input i's result, and the lengths agree), and it completes no
earlier than any input future. -/
theorem c7_all_ordered_results {T : Type} (fs : List (option.Future T)) :
    ((option.All fs).result.length = fs.length)
    ∧ (∀ i : Nat, (option.All fs).result[i]?
        = (fs[i]?).map (fun f => f.result))
    ∧ (∀ f ∈ fs, f.doneAt ≤ (option.All fs).doneAt) := by
  refine ⟨?_, ?_, ?_⟩
  · simp [option.All]
  · intro i
    simp only [option.All, List.getElem?_map]
    rfl
  · intro f hf
    show f.doneAt ≤ fs.foldl (fun acc g => max acc g.doneAt) 0
    exact option.mem_le_foldl_max fs f hf 0

/-- Claim C7 witness: three futures where the second completes first, then
the third, then the first; the combined sequence is still in input order
and `All` completes at tick 5, no earlier than any input. -/
theorem c7_all_ordered_results_witness :
    (option.All [({ result := 10, doneAt := 5 } : option.Future Nat),
      { result := 20, doneAt := 2 }, { result := 30, doneAt := 3 }]).result[0]?
      = some 10
    ∧ ({ result := 10, doneAt := 5 } : option.Future Nat).doneAt
        ≤ (option.All [({ result := 10, doneAt := 5 } : option.Future Nat),
            { result := 20, doneAt := 2 }, { result := 30, doneAt := 3 }]).doneAt := by
  have h := c7_all_ordered_results
    [({ result := 10, doneAt := 5 } : option.Future Nat),
      { result := 20, doneAt := 2 }, { result := 30, doneAt := 3 }]
  exact ⟨(h.2.1 0).trans rfl,
    h.2.2 { result := 10, doneAt := 5 } (List.mem_cons_self _ _)⟩

/-- Claim C8: `Map` and `Then` build the same future: same result value
`fn(f.Get())` and same completion instant. -/
theorem c8_map_eq_then {T R : Type} (f : option.Future T) (fn : T → R) :
    option.Map f fn = option.Then f fn :=
  rfl

/-- Claim C9: through a live handle (count at least 1), `With` returns
true, runs `fn` on the contained value, and its increment/`Drop` bracket
leaves the strong count exactly as it was before the call and the handle's
pointer intact. -/
theorem c9_with_preserves_count {T : Type} (b : arc.ArcInternal T)
    (fn : T → T) (h : 1 ≤ b.ref) :
    arc.With true b fn = (true, true, { b with data := fn b.data }) := by
  have hz : ¬b.ref + 1 - 1 = 0 := by omega
  simp only [arc.With, arc.Drop, hz, if_true, if_false, ite_true, ite_false]
  refine Prod.ext rfl (Prod.ext rfl ?_)
  show ({ data := fn b.data, ref := b.ref + 1 - 1 } : arc.ArcInternal T)
      = { data := fn b.data, ref := b.ref }
  have : b.ref + 1 - 1 = b.ref := by omega
  rw [this]

/-- Claim C9 witness: count 1 before, fn applied, count 1 after. -/
theorem c9_with_preserves_count_witness :
    arc.With true ({ data := 10, ref := 1 } : arc.ArcInternal Int) (fun x => x + 1)
      = (true, true, { data := 11, ref := 1 }) :=
  c9_with_preserves_count ({ data := 10, ref := 1 } : arc.ArcInternal Int)
    (fun x => x + 1) (by decide)

/-- Claim C10: every operation invoked through a handle whose internal
pointer is nil is total and safe: it returns nil / false / a zero value or
is a no-op, and never touches the block. -/
theorem c10_nil_handle_safety {T : Type} (b : arc.ArcInternal T)
    (v v' : T) (fn : T → T) :
    arc.Clone false b = (false, b)
    ∧ arc.Deref false b = (none : Option T)
    ∧ arc.StrongCount false b = 0
    ∧ arc.Drop false b = (false, b)
    ∧ arc.GetMut false b = (none : Option T)
    ∧ arc.TryUnwrap false b = (none, false, b)
    ∧ arc.Downgrade false b = (none, b)
    ∧ Weak.Upgrade false b = (none, b)
    ∧ arc.CompareAndSwap false b v v' = (false, b)
    ∧ arc.With false b fn = (false, false, b) :=
  ⟨rfl, rfl, rfl, rfl, rfl, rfl, rfl, rfl, rfl, rfl⟩
